import Mathlib

/-!
Verification of the socketcan-sa measurement aggregator and policy compiler.

The definitions below are a shallow embedding of the two core modules:

* `src/python/socketcan_sa/analyzer.py` — the windowed statistics
  aggregator (`analyze`, `_frame_bits`): per-identifier counters,
  inter-arrival gaps, the window-wide bit accumulator, and the report
  computed at window rollover.
* `src/src/socketcan_sa/rules.py` — the policy compiler (`load_rules`,
  `_parse_can_id`): identifier canonicalization, the limits section with
  the default burst, the drop list, and the remap table.

Python floats are modelled as exact rationals, Python ints as `Int`/`Nat`,
Python strings as `List Char`, and the mutable state of the polling loop as
an explicit state record transformed by a step function.
-/

deriving instance DecidableEq for Except

namespace SocketcanSA

/-! ### Constants of analyzer.py -/

/-- Constant `RECV_TIMEOUT`-independent part of the model: `CAN_MAX_DLC = 8`,
the CAN 2.0 maximum payload size (analyzer.py line 40). -/
def CAN_MAX_DLC : Nat := 8

/-- Constant `MIN_COUNT_FOR_AVG = 1` (analyzer.py line 39). -/
def MIN_COUNT_FOR_AVG : Nat := 1

/-- Constant `CAN_FRAME_OVERHEAD_BITS = 47` (analyzer.py line 44). -/
def CAN_FRAME_OVERHEAD_BITS : Nat := 47

/-- The literal `1e-9` guarding the bus-load division (analyzer.py line 122),
modelled exactly as the rational `10⁻⁹`. -/
def epsilon : ℚ := 1 / 1000000000

/-- Embedding of `_frame_bits` (analyzer.py lines 46-57):
`CAN_FRAME_OVERHEAD_BITS + payload_len * 8`. -/
def frame_bits (payload_len : Nat) : Nat :=
  CAN_FRAME_OVERHEAD_BITS + payload_len * 8

/-! ### The per-identifier record and the aggregator state

`by_id` is a `defaultdict` in the source (analyzer.py lines 70-75); it is
modelled as an insertion-ordered association list together with a default
record, exactly the observable behaviour of the Python dict. -/

/-- One entry of `by_id` (analyzer.py lines 70-75): frame count, total
payload bytes, timestamp of the last accepted frame, and the list of
inter-arrival gaps in milliseconds. -/
structure IdRec where
  count : Nat
  bytes : Nat
  last_ts : Option ℚ
  gaps_ms : List ℚ
deriving DecidableEq

/-- The `defaultdict` default value: `{"count": 0, "bytes": 0, "last_ts":
None, "gaps_ms": []}` (analyzer.py lines 70-75). -/
def IdRec.default : IdRec :=
  { count := 0, bytes := 0, last_ts := none, gaps_ms := [] }

/-- A received CAN message as the aggregator sees it: `arbitration_id` and
`len(msg.data)`. -/
structure Obs where
  arbitration_id : Nat
  payload_len : Nat
deriving DecidableEq

/-- Association-list lookup for the `by_id` dict. -/
def findRec : List (Nat × IdRec) → Nat → Option IdRec
  | [], _ => none
  | (k, r) :: rest, cid => if k = cid then some r else findRec rest cid

/-- Reading `by_id[cid]` on a `defaultdict`: the stored record, or the
default for an identifier not yet present. -/
def getRec (m : List (Nat × IdRec)) (cid : Nat) : IdRec :=
  match findRec m cid with
  | some r => r
  | none => IdRec.default

/-- Writing `by_id[cid] = r`: replace in place when present, append
otherwise (Python dicts preserve insertion order). -/
def putRec (m : List (Nat × IdRec)) (cid : Nat) (r : IdRec) : List (Nat × IdRec) :=
  if (findRec m cid).isSome then
    m.map (fun p => if p.1 = cid then (cid, r) else p)
  else
    m ++ [(cid, r)]

/-- The mutable state of the polling loop in `analyze` (analyzer.py lines
70-79): the per-identifier dict, the window-wide bit accumulator, and the
start time of the current window. -/
structure AnaState where
  by_id : List (Nat × IdRec)
  bits_in_window : Nat
  window_start : ℚ
deriving DecidableEq

/-- The state at loop entry (analyzer.py lines 70-79): empty dict, zero bit
accumulator, `window_start = time.time()`. -/
def initState (t0 : ℚ) : AnaState :=
  { by_id := [], bits_in_window := 0, window_start := t0 }

/-- The update of one `by_id` record for a valid message (analyzer.py lines
103-112): increment `count`, add the payload length to `bytes`, append an
inter-arrival gap in milliseconds when a previous timestamp exists, then
overwrite `last_ts` with `now`. -/
def ingestRec (r : IdRec) (plen : Nat) (now : ℚ) : IdRec :=
  match r.last_ts with
  | some ts =>
    { count := r.count + 1, bytes := r.bytes + plen, last_ts := some now
      gaps_ms := r.gaps_ms ++ [(now - ts) * 1000] }
  | none =>
    { count := r.count + 1, bytes := r.bytes + plen, last_ts := some now
      gaps_ms := r.gaps_ms }

/-- Recording one valid message (analyzer.py lines 103-115): update the
record of `msg.arbitration_id` and add the frame's estimated bits to the
window accumulator. -/
def ingest (st : AnaState) (msg : Obs) (now : ℚ) : AnaState :=
  { st with
    by_id := putRec st.by_id msg.arbitration_id
      (ingestRec (getRec st.by_id msg.arbitration_id) msg.payload_len now)
    bits_in_window := st.bits_in_window + frame_bits msg.payload_len }

/-! ### The report computed at window rollover (analyzer.py lines 118-152) -/

/-- One reported line / CSV row for an identifier (analyzer.py lines
129-145). -/
structure Row where
  id : Nat
  fps : ℚ
  avg_jitter_ms : ℚ
  avg_len : ℚ
  count : Nat
deriving DecidableEq

/-- The report emitted at a window boundary: actual elapsed duration `dt`,
the bus-load estimate, and one row per identifier seen in the window. -/
structure Report where
  dt : ℚ
  bus_load : ℚ
  rows : List Row
deriving DecidableEq

/-- Insertion of a key into an ascending list, used to model Python's
`sorted(by_id.keys())` (analyzer.py line 129). -/
def insertSorted (x : Nat) : List Nat → List Nat
  | [] => [x]
  | y :: ys => if x ≤ y then x :: y :: ys else y :: insertSorted x ys

/-- Ascending sort of the identifier keys, modelling `sorted(...)`. -/
def sortNat (l : List Nat) : List Nat :=
  l.foldr insertSorted []

/-- Average jitter (analyzer.py line 133): mean of the recorded gaps, `0.0`
when no gap was recorded. -/
def avg_jitter (gaps : List ℚ) : ℚ :=
  if gaps = [] then 0 else gaps.sum / (gaps.length : ℚ)

/-- The per-identifier statistics of one report row (analyzer.py lines
130-134). Note that `fps` divides by the raw `dt` (line 131) while
`avg_len` divides by `max(MIN_COUNT_FOR_AVG, count)` (line 132). -/
def computeRow (cid : Nat) (r : IdRec) (dt : ℚ) : Row :=
  { id := cid
    fps := (r.count : ℚ) / dt
    avg_jitter_ms := avg_jitter r.gaps_ms
    avg_len := (r.bytes : ℚ) / (max MIN_COUNT_FOR_AVG r.count : ℚ)
    count := r.count }

/-- The bus-load estimate (analyzer.py line 122):
`min(100.0, (bits_in_window / max(dt, 1e-9)) * 100.0 / bitrate)`. -/
def bus_load_calc (bits : Nat) (dt : ℚ) (bitrate : Nat) : ℚ :=
  min 100 ((bits : ℚ) / max dt epsilon * 100 / (bitrate : ℚ))

/-- The full report computed at a window boundary (analyzer.py lines
119-145): `dt = now - window_start`, the bus load, and one row per
identifier in ascending identifier order. -/
def computeReport (st : AnaState) (now : ℚ) (bitrate : Nat) : Report :=
  let dt := now - st.window_start
  { dt := dt
    bus_load := bus_load_calc st.bits_in_window dt bitrate
    rows := (sortNat (st.by_id.map Prod.fst)).map
      (fun cid => computeRow cid (getRec st.by_id cid) dt) }

/-- The window-boundary check and rollover (analyzer.py lines 118-152): when
`now - window_start ≥ interval` the report is computed, the dict and bit
accumulator are cleared and `window_start = now`; otherwise nothing
happens. -/
def maybe_report (st : AnaState) (now interval : ℚ) (bitrate : Nat) :
    AnaState × Option Report :=
  if interval ≤ now - st.window_start then
    ({ by_id := [], bits_in_window := 0, window_start := now },
      some (computeReport st now bitrate))
  else
    (st, none)

/-- One iteration of the polling loop body (analyzer.py lines 92-152) given
the received message (or `none` on a recv timeout) and the value of
`time.time()`. An oversized payload takes the `continue` at line 101,
which returns to `bus.recv` without reaching the window-boundary check at
line 119. -/
def step (st : AnaState) (msg : Option Obs) (now interval : ℚ) (bitrate : Nat) :
    AnaState × Option Report :=
  match msg with
  | some m =>
    if CAN_MAX_DLC < m.payload_len then
      (st, none)
    else
      maybe_report (ingest st m now) now interval bitrate
  | none => maybe_report st now interval bitrate

/-! ### Invariants of the aggregator state -/

/-- The per-record invariant of spec §3: the number of recorded
inter-arrival gaps is `max(count - 1, 0)`, and a last timestamp is stored
exactly when at least one frame of the identifier was accepted. -/
def RecInv (r : IdRec) : Prop :=
  (r.gaps_ms.length : ℤ) = max ((r.count : ℤ) - 1) 0 ∧ (r.last_ts.isSome ↔ 0 < r.count)

instance (r : IdRec) : Decidable (RecInv r) := by
  unfold RecInv; infer_instance

/-- The state invariant: every record present in `by_id` satisfies
`RecInv`. -/
def StateInv (st : AnaState) : Prop :=
  ∀ p ∈ st.by_id, RecInv p.2

instance (st : AnaState) : Decidable (StateInv st) := by
  unfold StateInv; infer_instance

/-! ### rules.py — identifier parsing

`_parse_can_id` (rules.py lines 36-67) accepts a Python int or string.
Strings go through `strip().lower().replace(chr(95), chr(32)-free form)`
— that is, whitespace is trimmed, letters are lower-cased and underscores
removed — and are then parsed by `int(s, 16)` when they start with `0x`,
else by `int(s, 10)`. Python values are modelled by `Value`, Python
strings by `List Char`, and `int(s, base)` by `pyInt`. -/

/-- A YAML scalar as rules.py sees it: a Python `int`, `float`, `str`, or
anything else (list, mapping, None, ...). -/
inductive Value where
  | vInt (n : ℤ)
  | vFloat (q : ℚ)
  | vStr (s : List Char)
  | vOther
deriving DecidableEq

/-- The error taxonomy of rules.py. The source raises a single `RuleError`
class; the constructors here distinguish its textually distinct messages
(invalid CAN ID format, out of range, unsupported type, missing/invalid
rate, invalid burst, wrong container shape, identity remap, duplicate remap
source). -/
inductive RuleErr where
  | invalidFormat
  | outOfRange
  | unsupportedType
  | missingRate
  | invalidRate
  | invalidBurst
  | invalidStructure
  | identityRemap
  | duplicateRemapSource
deriving DecidableEq

/-- Whitespace for Python's `str.strip()` (the ASCII cases). -/
def pyIsSpace (c : Char) : Bool :=
  c = ' ' || c = '\t' || c = '\n' || c = '\r' || c = '\x0b' || c = '\x0c'

/-- Python `str.strip()`: drop leading and trailing whitespace. -/
def pyStrip (s : List Char) : List Char :=
  ((s.dropWhile pyIsSpace).reverse.dropWhile pyIsSpace).reverse

/-- Python `str.lower()` on one character (the ASCII case). -/
def pyLowerChar (c : Char) : Char :=
  if 'A' ≤ c ∧ c ≤ 'Z' then Char.ofNat (c.toNat + 32) else c

/-- Removal of every underscore, modelling `.replace` of an underscore by
the empty string. -/
def stripUnderscores (s : List Char) : List Char :=
  s.filter (fun c => c ≠ '_')

/-- The value of one digit character under a given base, as accepted by
Python's `int(s, base)`. -/
def digitVal? (base : Nat) (c : Char) : Option Nat :=
  if '0' ≤ c ∧ c ≤ '9' ∧ c.toNat - '0'.toNat < base then some (c.toNat - '0'.toNat)
  else if base = 16 ∧ 'a' ≤ c ∧ c ≤ 'f' then some (c.toNat - 'a'.toNat + 10)
  else if base = 16 ∧ 'A' ≤ c ∧ c ≤ 'F' then some (c.toNat - 'A'.toNat + 10)
  else none

/-- Digit-sequence accumulation for `int(s, base)`. -/
def parseDigitsAux (base : Nat) (acc : Nat) : List Char → Option Nat
  | [] => some acc
  | c :: cs =>
    match digitVal? base c with
    | some d => parseDigitsAux base (acc * base + d) cs
    | none => none

/-- A non-empty digit sequence, or failure. -/
def parseDigits (base : Nat) (s : List Char) : Option Nat :=
  match s with
  | [] => none
  | _ => parseDigitsAux base 0 s

/-- An optional leading sign. -/
def splitSign : List Char → ℤ × List Char
  | [] => (1, [])
  | c :: r =>
    if c = '+' then (1, r)
    else if c = '-' then (-1, r)
    else (1, c :: r)

/-- The optional `0x` / `0X` base marker accepted by `int(s, 16)`. -/
def dropHexMark : List Char → List Char
  | c1 :: c2 :: r =>
    if c1 = '0' ∧ (c2 = 'x' ∨ c2 = 'X') then r else c1 :: c2 :: r
  | s => s

/-- Python's `int(s, base)` for base 10 or 16 on an already stripped
string: optional sign, optional `0x` marker (base 16 only), then a
non-empty digit sequence. -/
def pyInt (base : Nat) (s : List Char) : Option ℤ :=
  let p := splitSign s
  let s2 := if base = 16 then dropHexMark p.2 else p.2
  (parseDigits base s2).map (fun n => p.1 * (n : ℤ))

/-- Constant `MAX_CAN_ID = 0x1FFFFFFF` (rules.py line 28). -/
def MAX_CAN_ID : Nat := 0x1FFFFFFF

/-- Does the normalized string start with `0x` (rules.py line 54)? The
string was lower-cased, so only the lowercase marker can occur. -/
def startsWith0x : List Char → Bool
  | c1 :: c2 :: _ => c1 = '0' && c2 = 'x'
  | _ => false

/-- Embedding of `_parse_can_id` (rules.py lines 36-67): an int is used
as-is; a string is stripped, lower-cased and underscore-free, then parsed
base 16 when it starts with `0x`, else base 10; any other type is refused;
finally the range `0 ≤ cid ≤ MAX_CAN_ID` is checked uniformly. -/
def parse_can_id (val : Value) : Except RuleErr ℤ :=
  match val with
  | .vInt n =>
    if 0 ≤ n ∧ n ≤ (MAX_CAN_ID : ℤ) then .ok n else .error .outOfRange
  | .vStr s =>
    let s1 := stripUnderscores ((pyStrip s).map pyLowerChar)
    match (if startsWith0x s1 then pyInt 16 s1 else pyInt 10 s1) with
    | none => .error .invalidFormat
    | some cid =>
      if 0 ≤ cid ∧ cid ≤ (MAX_CAN_ID : ℤ) then .ok cid else .error .outOfRange
  | .vFloat _ => .error .unsupportedType
  | .vOther => .error .unsupportedType

/-! ### rules.py — the document model and `load_rules`

`load_rules` (rules.py lines 70-169) receives the YAML document already
deserialized; the file access and the YAML parse itself are outside the
embedding, which starts at the validated top-level mapping. Python dicts
iterate in insertion order, so each section is a list of entries. -/

/-- The value under one `limits` key: a mapping with its optional `rate`
and `burst` fields, or something that is not a mapping (rules.py lines
107-108). -/
inductive LimitVal where
  | map (rate? : Option Value) (burst? : Option Value)
  | notMap
deriving DecidableEq

/-- The `limits` section: absent, present but not a mapping, or a mapping
given as its insertion-ordered entries (rules.py lines 101-104). -/
inductive LimitsSection where
  | absent
  | notMapping
  | mapping (entries : List (Value × LimitVal))
deriving DecidableEq

/-- One element of `actions.remap`: a `{from, to}` mapping or anything
else (rules.py lines 153-155). -/
inductive RemapItem where
  | pair (fromV toV : Value)
  | notPair
deriving DecidableEq

/-- The `actions.drop` subsection (rules.py lines 137-140). -/
inductive DropSection where
  | absent
  | notList
  | list (items : List Value)
deriving DecidableEq

/-- The `actions.remap` subsection (rules.py lines 147-150). -/
inductive RemapSection where
  | absent
  | notList
  | list (items : List RemapItem)
deriving DecidableEq

/-- The `actions` section (rules.py lines 131-134). -/
inductive ActionsSection where
  | absent
  | notMapping
  | mapping (drop : DropSection) (remap : RemapSection)
deriving DecidableEq

/-- A top-level rules document (a YAML mapping with optional `limits` and
`actions` keys). -/
structure RulesDoc where
  limits : LimitsSection
  actions : ActionsSection
deriving DecidableEq

/-- One compiled limit: `{"rate": float(rate), "burst": int(burst)}`
(rules.py lines 125-128). -/
structure Limit where
  rate : ℚ
  burst : ℤ
deriving DecidableEq

/-- The compiled policy returned by `load_rules` (rules.py lines 94-98):
the limits dict, the drop set (modelled as its distinct elements in first
insertion order) and the remap dict. -/
structure Policy where
  limits : List (ℤ × Limit)
  drop : List ℤ
  remap : List (ℤ × ℤ)
deriving DecidableEq

/-- The numeric reading of a rate value: `isinstance(rate, (int, float))`
(rules.py line 116). -/
def numVal? : Value → Option ℚ
  | .vInt n => some (n : ℚ)
  | .vFloat q => some q
  | _ => none

/-- Rate and burst validation for one limits entry (rules.py lines
112-124): `rate` must be present, numeric and strictly positive; `burst`
defaults to `math.ceil(rate)` and must otherwise be an int `≥ 1`. -/
def compile_rate_burst (rate? burst? : Option Value) : Except RuleErr Limit :=
  match rate? with
  | none => .error .missingRate
  | some rv =>
    match numVal? rv with
    | none => .error .invalidRate
    | some r =>
      if r ≤ 0 then .error .invalidRate
      else
        match burst? with
        | none => .ok { rate := r, burst := ⌈r⌉ }
        | some (.vInt b) =>
          if b < 1 then .error .invalidBurst else .ok { rate := r, burst := b }
        | some _ => .error .invalidBurst

/-- Dict insertion for the compiled limits: `result` is updated in place,
so a later entry whose key canonicalizes to an already present identifier
overwrites the earlier value (rules.py line 125). -/
def dictInsert (m : List (ℤ × Limit)) (k : ℤ) (v : Limit) : List (ℤ × Limit) :=
  if m.any (fun p => p.1 = k) then
    m.map (fun p => if p.1 = k then (k, v) else p)
  else
    m ++ [(k, v)]

/-- The loop over the limits entries (rules.py lines 106-128): for each
entry check the value is a mapping, canonicalize the key, validate rate and
burst, and store under the canonical identifier. -/
def compile_limits_aux (acc : List (ℤ × Limit)) :
    List (Value × LimitVal) → Except RuleErr (List (ℤ × Limit))
  | [] => .ok acc
  | (_, .notMap) :: _ => .error .invalidStructure
  | (k, .map rate? burst?) :: rest =>
    match parse_can_id k with
    | .error e => .error e
    | .ok cid =>
      match compile_rate_burst rate? burst? with
      | .error e => .error e
      | .ok lim => compile_limits_aux (dictInsert acc cid lim) rest

/-- The `limits` section (rules.py lines 101-128): absent means empty. -/
def compile_limits : LimitsSection → Except RuleErr (List (ℤ × Limit))
  | .absent => .ok []
  | .notMapping => .error .invalidStructure
  | .mapping entries => compile_limits_aux [] entries

/-- Set insertion for the drop set (`set.add`): duplicates collapse. -/
def setInsert (s : List ℤ) (x : ℤ) : List ℤ :=
  if x ∈ s then s else s ++ [x]

/-- The loop over the drop list (rules.py lines 142-144). -/
def compile_drop_aux (acc : List ℤ) : List Value → Except RuleErr (List ℤ)
  | [] => .ok acc
  | item :: rest =>
    match parse_can_id item with
    | .error e => .error e
    | .ok cid => compile_drop_aux (setInsert acc cid) rest

/-- The `actions.drop` subsection (rules.py lines 137-144). -/
def compile_drop : DropSection → Except RuleErr (List ℤ)
  | .absent => .ok []
  | .notList => .error .invalidStructure
  | .list items => compile_drop_aux [] items

/-- The loop over the remap list (rules.py lines 152-167): each item must
be a `{from, to}` mapping, both sides are canonicalized, `from == to` is
rejected, a repeated `from` is rejected, and the pair is recorded. -/
def compile_remap_aux (seen : List ℤ) (acc : List (ℤ × ℤ)) :
    List RemapItem → Except RuleErr (List (ℤ × ℤ))
  | [] => .ok acc
  | .notPair :: _ => .error .invalidStructure
  | .pair fromV toV :: rest =>
    match parse_can_id fromV with
    | .error e => .error e
    | .ok fromId =>
      match parse_can_id toV with
      | .error e => .error e
      | .ok toId =>
        if fromId = toId then .error .identityRemap
        else if fromId ∈ seen then .error .duplicateRemapSource
        else compile_remap_aux (seen ++ [fromId]) (acc ++ [(fromId, toId)]) rest

/-- The `actions.remap` subsection (rules.py lines 147-167). -/
def compile_remap : RemapSection → Except RuleErr (List (ℤ × ℤ))
  | .absent => .ok []
  | .notList => .error .invalidStructure
  | .list items => compile_remap_aux [] [] items

/-- The `actions` section (rules.py lines 131-167): drop first, then
remap, fail-fast. -/
def compile_actions : ActionsSection → Except RuleErr (List ℤ × List (ℤ × ℤ))
  | .absent => .ok ([], [])
  | .notMapping => .error .invalidStructure
  | .mapping dropSec remapSec =>
    match compile_drop dropSec with
    | .error e => .error e
    | .ok dropIds =>
      match compile_remap remapSec with
      | .error e => .error e
      | .ok remapTbl => .ok (dropIds, remapTbl)

/-- Embedding of `load_rules` on an already deserialized top-level mapping
(rules.py lines 91-169): limits first, then actions, fail-fast on the
first violation. -/
def load_rules (doc : RulesDoc) : Except RuleErr Policy :=
  match compile_limits doc.limits with
  | .error e => .error e
  | .ok lims =>
    match compile_actions doc.actions with
    | .error e => .error e
    | .ok act => .ok { limits := lims, drop := act.1, remap := act.2 }

/-! ### Views of a remap item used to state the remap claims -/

/-- The canonical `(from, to)` pair of a remap item, when the item is a
`{from, to}` mapping and both sides canonicalize. -/
def remapItemIds? : RemapItem → Option (ℤ × ℤ)
  | .pair fromV toV =>
    match parse_can_id fromV, parse_can_id toV with
    | .ok a, .ok b => some (a, b)
    | _, _ => none
  | .notPair => none

/-- The canonical sources of the parseable remap items, in order. -/
def remapSources (items : List RemapItem) : List ℤ :=
  items.filterMap (fun i => (remapItemIds? i).map Prod.fst)

/-- An item whose two sides canonicalize to the same identifier. -/
def IdentityItem (i : RemapItem) : Prop :=
  ∃ a, remapItemIds? i = some (a, a)

/-- An item that is a `{from, to}` mapping whose sides both canonicalize. -/
def GoodItem (i : RemapItem) : Prop :=
  ∃ q, remapItemIds? i = some q

/-! ### Reference formatters for the round-trip claim

`pyDec n` models Python's `str(n)` for a natural number and `pyHexUpper n`
models the format `X` (uppercase hexadecimal, no marker); both produce the
standard representation without leading zeros. -/

/-- The character of one digit value, uppercase for 10..15. -/
def digitCharUpper (d : Nat) : Char :=
  if d < 10 then Char.ofNat ('0'.toNat + d) else Char.ofNat ('A'.toNat + (d - 10))

/-- Little-endian base-`base` digits with an explicit fuel bound, so that
the kernel can evaluate it on concrete inputs (it agrees with
`Nat.digits`, see `pyDigits_eq_digits`). -/
def pyDigits (base : Nat) : Nat → Nat → List Nat
  | 0, _ => []
  | fuel + 1, n => if n = 0 then [] else n % base :: pyDigits base fuel (n / base)

/-- Python `str(n)` for a natural number. -/
def pyDec (n : Nat) : List Char :=
  if n = 0 then ['0'] else (pyDigits 10 n n).reverse.map digitCharUpper

/-- Python uppercase hexadecimal format of a natural number, no marker. -/
def pyHexUpper (n : Nat) : List Char :=
  if n = 0 then ['0'] else (pyDigits 16 n n).reverse.map digitCharUpper

end SocketcanSA

namespace SocketcanSA

/-! ### Helper lemmas about the aggregator -/

lemma findRec_mem {m : List (Nat × IdRec)} {cid : Nat} {r : IdRec}
    (h : findRec m cid = some r) : (cid, r) ∈ m := by
  induction m with
  | nil => simp [findRec] at h
  | cons p rest ih =>
    obtain ⟨k, r'⟩ := p
    by_cases hk : k = cid
    · subst hk
      simp [findRec] at h
      subst h
      exact List.mem_cons_self _ _
    · simp [findRec, hk] at h
      exact List.mem_cons_of_mem _ (ih h)

lemma mem_putRec {m : List (Nat × IdRec)} {cid : Nat} {r : IdRec} {q : Nat × IdRec}
    (h : q ∈ putRec m cid r) : q = (cid, r) ∨ q ∈ m := by
  unfold putRec at h
  by_cases hp : (findRec m cid).isSome
  · rw [if_pos hp] at h
    obtain ⟨p, hpm, hq⟩ := List.mem_map.1 h
    by_cases hc : p.1 = cid
    · rw [if_pos hc] at hq
      exact Or.inl hq.symm
    · rw [if_neg hc] at hq
      exact Or.inr (hq ▸ hpm)
  · rw [if_neg hp] at h
    rcases List.mem_append.1 h with h | h
    · exact Or.inr h
    · exact Or.inl (List.mem_singleton.1 h)

lemma recInv_default : RecInv IdRec.default := by
  constructor <;> simp [IdRec.default]

lemma getRec_inv {st : AnaState} (h : StateInv st) (cid : Nat) :
    RecInv (getRec st.by_id cid) := by
  unfold getRec
  cases hf : findRec st.by_id cid with
  | none => exact recInv_default
  | some r => exact h _ (findRec_mem hf)

lemma recInv_ingestRec {r : IdRec} (h : RecInv r) (plen : Nat) (now : ℚ) :
    RecInv (ingestRec r plen now) := by
  obtain ⟨hlen, hsome⟩ := h
  cases hl : r.last_ts with
  | none =>
    have hc : r.count = 0 := by
      by_contra hcc
      have h2 : r.last_ts.isSome := hsome.2 (Nat.pos_of_ne_zero hcc)
      rw [hl] at h2
      simp at h2
    simp only [ingestRec, hl]
    refine ⟨?_, by simp⟩
    simp only
    omega
  | some ts =>
    have hc : 0 < r.count := hsome.1 (by rw [hl]; rfl)
    simp only [ingestRec, hl]
    refine ⟨?_, by simp⟩
    simp only [List.length_append, List.length_singleton]
    omega

lemma stateInv_ingest {st : AnaState} (h : StateInv st) (msg : Obs) (now : ℚ) :
    StateInv (ingest st msg now) := by
  intro q hq
  have hrec : RecInv (getRec st.by_id msg.arbitration_id) :=
    getRec_inv h msg.arbitration_id
  simp only [ingest] at hq
  rcases mem_putRec hq with hq | hq
  · subst hq
    exact recInv_ingestRec hrec msg.payload_len now
  · exact h _ hq

lemma stateInv_reset (b : Nat) (t : ℚ) :
    StateInv { by_id := [], bits_in_window := b, window_start := t } := by
  intro q hq
  simp at hq

lemma stateInv_maybe_report {st : AnaState} (h : StateInv st)
    (now interval : ℚ) (bitrate : Nat) :
    StateInv (maybe_report st now interval bitrate).1 := by
  unfold maybe_report
  by_cases hc : interval ≤ now - st.window_start
  · simp only [hc, if_pos]
    exact stateInv_reset 0 now
  · simp only [hc, if_neg, not_false_iff]
    exact h

lemma epsilon_pos : (0 : ℚ) < epsilon := by norm_num [epsilon]

lemma max_eps_pos (dt : ℚ) : (0 : ℚ) < max dt epsilon :=
  lt_of_lt_of_le epsilon_pos (le_max_right _ _)

/-! ### Claims about the analyzer -/

/-- C1. The claim says the window-boundary check runs on every polling
iteration, even when an arrived observation is rejected for an oversized
payload, so a window always closes on the first cycle whose `now` is past
the boundary. The code violates this: the invalid-DLC branch executes
`continue` (analyzer.py line 101), which jumps back to `bus.recv` and skips
the boundary check at line 119. Concretely: from the initial state with
`window_start = 0`, at `now = 5` with `interval = 1` the boundary is long
past, yet an iteration that receives a payload of 9 bytes emits no report
and leaves `window_start` at 0, while the same iteration with no traffic
does emit the report. -/
theorem analyzer_invalid_dlc_continue_skips_window_close :
    (1 : ℚ) ≤ (5 : ℚ) - (initState 0).window_start ∧
    step (initState 0) (some { arbitration_id := 1, payload_len := 9 }) 5 1 500000
      = (initState 0, none) ∧
    (step (initState 0) none 5 1 500000).2
      = some (computeReport (initState 0) 5 500000) := by
  refine ⟨by norm_num [initState], by rfl, ?_⟩
  norm_num [step, maybe_report, initState]

/-- C2, counterexample. The claim says every per-identifier statistic at
rollover is computed with `elapsed = max(now - window_start, epsilon)`, in
particular `frames_per_second = count / elapsed`, so the division is
guarded even for a degenerate window with `now - window_start = 0`. In the
code `fps = rec["count"] / dt` (analyzer.py line 131) divides by the raw
`dt`: at a degenerate window with `dt = 0` and one identifier with one
frame, the code's row has `fps = 0` (the rational model of a division by
zero; Python would raise `ZeroDivisionError`), while the claimed guarded
formula gives `1 / max(0, 1e-9) = 10⁹`. -/
theorem report_fps_guard_counterexample :
    ((computeReport
        { by_id := [(1, { count := 1, bytes := 4, last_ts := some 0, gaps_ms := [] })]
          bits_in_window := 79, window_start := 0 } 0 500000).rows.map Row.fps) = [0] ∧
    (1 : ℚ) / max ((0 : ℚ) - 0) epsilon = 1000000000 := by
  constructor
  · norm_num [computeReport, computeRow, sortNat, insertSorted, getRec, findRec]
  · norm_num [epsilon]

/-- C2, amended. Only the bus-load division is guarded: its divisor
`max(now - window_start, 1e-9)` is always positive, and the bus load equals
the guarded expression of the claim. The per-identifier `fps` divides by
the raw `dt = now - window_start`; whenever the window is not degenerate
(`dt ≥ 1e-9`, which holds at every rollover triggered with an interval of
at least `1e-9`), it coincides with the claimed `count / max(dt, epsilon)`.
-/
theorem report_divisions_guard_amended (st : AnaState) (now : ℚ) (bitrate : Nat)
    (h : epsilon ≤ now - st.window_start) :
    (0 : ℚ) < max (now - st.window_start) epsilon ∧
    (computeReport st now bitrate).bus_load
      = min 100 ((st.bits_in_window : ℚ) / max (now - st.window_start) epsilon
          / (bitrate : ℚ) * 100) ∧
    ∀ row ∈ (computeReport st now bitrate).rows,
      row.fps = (row.count : ℚ) / max (now - st.window_start) epsilon := by
  refine ⟨max_eps_pos _, ?_, ?_⟩
  · simp only [computeReport, bus_load_calc]
    congr 1
    ring
  · intro row hrow
    simp only [computeReport, List.mem_map] at hrow
    obtain ⟨cid, hcid, rfl⟩ := hrow
    simp only [computeRow]
    rw [max_eq_left h]

/-- Witness for the amended C2 at a concrete non-degenerate window. -/
theorem report_divisions_guard_amended_witness :
    epsilon ≤ (1 : ℚ) - (initState 0).window_start ∧
    ((0 : ℚ) < max ((1 : ℚ) - (initState 0).window_start) epsilon ∧
     (computeReport (initState 0) 1 500000).bus_load
       = min 100 (((initState 0).bits_in_window : ℚ)
           / max ((1 : ℚ) - (initState 0).window_start) epsilon / (500000 : ℚ) * 100) ∧
     ∀ row ∈ (computeReport (initState 0) 1 500000).rows,
       row.fps = (row.count : ℚ) / max ((1 : ℚ) - (initState 0).window_start) epsilon) :=
  ⟨by norm_num [epsilon, initState],
    report_divisions_guard_amended (initState 0) 1 500000 (by norm_num [epsilon, initState])⟩

/-- C3. The bus-load estimate of analyzer.py line 122 equals
`min(100, total_bits / max(elapsed, epsilon) / bitrate * 100)`, lies in
`[0, 100]`, and is monotonically non-decreasing in `total_bits` for fixed
`elapsed` and `bitrate`. -/
theorem load_pct_formula_bounds_monotone (bits bits2 : Nat) (elapsed : ℚ) (bitrate : Nat)
    (he : 0 ≤ elapsed) (hb : 0 < bitrate) :
    bus_load_calc bits elapsed bitrate
      = min 100 ((bits : ℚ) / max elapsed epsilon / (bitrate : ℚ) * 100) ∧
    0 ≤ bus_load_calc bits elapsed bitrate ∧
    bus_load_calc bits elapsed bitrate ≤ 100 ∧
    (bits ≤ bits2 → bus_load_calc bits elapsed bitrate ≤ bus_load_calc bits2 elapsed bitrate) := by
  have hm : (0 : ℚ) < max elapsed epsilon := max_eps_pos elapsed
  have hbq : (0 : ℚ) < (bitrate : ℚ) := by exact_mod_cast hb
  refine ⟨?_, ?_, ?_, ?_⟩
  · simp only [bus_load_calc]
    congr 1
    ring
  · refine le_min (by norm_num) ?_
    have h1 : (0 : ℚ) ≤ (bits : ℚ) / max elapsed epsilon :=
      div_nonneg (Nat.cast_nonneg _) (le_of_lt hm)
    have h2 : (0 : ℚ) ≤ (bits : ℚ) / max elapsed epsilon * 100 :=
      mul_nonneg h1 (by norm_num)
    exact div_nonneg h2 (Nat.cast_nonneg _)
  · exact min_le_left _ _
  · intro hbb
    have hcast : ((bits : ℚ)) ≤ (bits2 : ℚ) := by exact_mod_cast hbb
    refine min_le_min le_rfl ?_
    rw [div_le_div_iff_of_pos_right hbq]
    exact mul_le_mul_of_nonneg_right ((div_le_div_iff_of_pos_right hm).2 hcast) (by norm_num)

/-- Witness for C3 at concrete inputs. -/
theorem load_pct_formula_bounds_monotone_witness :
    (0 : ℚ) ≤ 1 ∧ 0 < 500000 ∧
    (bus_load_calc 1000 1 500000
       = min 100 ((1000 : ℚ) / max 1 epsilon / (500000 : ℚ) * 100) ∧
     0 ≤ bus_load_calc 1000 1 500000 ∧
     bus_load_calc 1000 1 500000 ≤ 100 ∧
     (1000 ≤ 2000 → bus_load_calc 1000 1 500000 ≤ bus_load_calc 2000 1 500000)) :=
  ⟨by norm_num, by norm_num,
    load_pct_formula_bounds_monotone 1000 2000 1 500000 (by norm_num) (by norm_num)⟩

/-- C4. For every payload length in 0..8 the per-frame bit cost of
`_frame_bits` equals `47 + payload_len * 8` (so `bit_cost(0) = 47` and
`bit_cost(8) = 111`) and is strictly increasing in the payload length. -/
theorem frame_bits_closed_form_strict_mono (n : Nat) (h : n ≤ 8) :
    frame_bits n = 47 + n * 8 ∧ frame_bits 0 = 47 ∧ frame_bits 8 = 111 ∧
    ∀ m : Nat, m < n → frame_bits m < frame_bits n := by
  refine ⟨rfl, rfl, rfl, ?_⟩
  intro m hm
  simp only [frame_bits, CAN_FRAME_OVERHEAD_BITS]
  omega

/-- Witness for C4 at payload length 8. -/
theorem frame_bits_closed_form_strict_mono_witness :
    (8 : Nat) ≤ 8 ∧
    (frame_bits 8 = 47 + 8 * 8 ∧ frame_bits 0 = 47 ∧ frame_bits 8 = 111 ∧
     ∀ m : Nat, m < 8 → frame_bits m < frame_bits 8) :=
  ⟨by decide, frame_bits_closed_form_strict_mono 8 (by decide)⟩

/-- C8. An observation with an oversized payload (`payload_len > 8`) leaves
the whole aggregator state — the per-identifier records, the window-wide
bit accumulator and the window start — exactly as before, and the loop
continues without emitting anything: the step function returns the state
unchanged for every such observation. -/
theorem oversized_payload_leaves_state_unchanged
    (st : AnaState) (obs : Obs) (now interval : ℚ) (bitrate : Nat)
    (h : CAN_MAX_DLC < obs.payload_len) :
    step st (some obs) now interval bitrate = (st, none) := by
  simp [step, h]

/-- Witness for C8: a 9-byte payload at the initial state. -/
theorem oversized_payload_leaves_state_unchanged_witness :
    CAN_MAX_DLC < 9 ∧
    step (initState 0) (some { arbitration_id := 1, payload_len := 9 }) 0 1 500000
      = (initState 0, none) :=
  ⟨by decide,
    oversized_payload_leaves_state_unchanged (initState 0)
      { arbitration_id := 1, payload_len := 9 } 0 1 500000 (by decide)⟩

/-- C9. For every record present in `by_id`, the number of recorded
inter-arrival gaps equals `max(count - 1, 0)` (together with the auxiliary
fact that a last timestamp exists exactly when `count ≥ 1`): this holds in
the initial state and is preserved by every iteration of the loop — an
accepted first observation of an identifier records no gap, every later one
records exactly one, and a window reset restores the invariant trivially. -/
theorem gap_count_invariant_preserved :
    (∀ t0 : ℚ, StateInv (initState t0)) ∧
    ∀ st msg now interval bitrate, StateInv st →
      StateInv (step st msg now interval bitrate).1 := by
  constructor
  · intro t0 q hq
    simp [initState] at hq
  · intro st msg now interval bitrate h
    cases msg with
    | none => exact stateInv_maybe_report h now interval bitrate
    | some m =>
      by_cases hd : CAN_MAX_DLC < m.payload_len
      · simpa [step, hd] using h
      · simp only [step, hd, if_neg, not_false_iff]
        exact stateInv_maybe_report (stateInv_ingest h m now) now interval bitrate

/-- Witness for C9: one step from the initial state. -/
theorem gap_count_invariant_preserved_witness :
    StateInv ((step (initState 0)
      (some { arbitration_id := 5, payload_len := 3 }) 1 2 500000).1) :=
  gap_count_invariant_preserved.2 (initState 0)
    (some { arbitration_id := 5, payload_len := 3 }) 1 2 500000 (by decide)

end SocketcanSA

namespace SocketcanSA

lemma pyDigits_eq_digits (base : Nat) (hb : 2 ≤ base) :
    ∀ fuel n, n ≤ fuel → pyDigits base fuel n = Nat.digits base n := by
  intro fuel
  induction fuel with
  | zero =>
    intro n hn
    interval_cases n
    simp [pyDigits]
  | succ f ih =>
    intro n hn
    by_cases h0 : n = 0
    · simp [pyDigits, h0]
    · have hlt : n / base < n := Nat.div_lt_self (Nat.pos_of_ne_zero h0) (by omega)
      rw [pyDigits, if_neg h0, ih (n / base) (by omega),
        Nat.digits_def' (by omega : 1 < base) (Nat.pos_of_ne_zero h0)]

lemma parseDigitsAux_map (base : Nat) (chr : Nat → Char) :
    ∀ (ds : List Nat) (acc : Nat), (∀ d ∈ ds, digitVal? base (chr d) = some d) →
      parseDigitsAux base acc (ds.map chr)
        = some (ds.foldl (fun a d => a * base + d) acc) := by
  intro ds
  induction ds with
  | nil => intro acc _; rfl
  | cons d t ih =>
    intro acc hch
    rw [List.map_cons, parseDigitsAux, hch d (List.mem_cons_self _ _)]
    exact ih _ (fun e he => hch e (List.mem_cons_of_mem _ he))

lemma foldl_reverse_ofDigits (b : Nat) :
    ∀ (l : List Nat) (acc : Nat),
      l.reverse.foldl (fun a d => a * b + d) acc
        = acc * b ^ l.length + Nat.ofDigits b l := by
  intro l
  induction l with
  | nil => intro acc; simp [Nat.ofDigits_nil]
  | cons d t ih =>
    intro acc
    rw [List.reverse_cons, List.foldl_append, ih acc]
    simp [Nat.ofDigits_cons]
    ring


lemma decDigitChar_facts :
    ∀ d : Nat, d < 10 →
      pyIsSpace (digitCharUpper d) = false ∧
      pyLowerChar (digitCharUpper d) = digitCharUpper d ∧
      digitCharUpper d ≠ '_' ∧
      digitCharUpper d ≠ '+' ∧
      digitCharUpper d ≠ '-' ∧
      digitCharUpper d ≠ 'x' ∧
      digitVal? 10 (digitCharUpper d) = some d := by decide

lemma hexDigitChar_facts :
    ∀ d : Nat, d < 16 →
      pyIsSpace (digitCharUpper d) = false ∧
      pyLowerChar (digitCharUpper d) ≠ '_' ∧
      digitVal? 16 (pyLowerChar (digitCharUpper d)) = some d := by decide

lemma pyStrip_eq_self {s : List Char} (h : ∀ c ∈ s, pyIsSpace c = false) :
    pyStrip s = s := by
  have h1 : s.dropWhile pyIsSpace = s := by
    cases s with
    | nil => rfl
    | cons c t => rw [List.dropWhile_cons, h c (List.mem_cons_self _ _)]; simp
  have h2 : s.reverse.dropWhile pyIsSpace = s.reverse := by
    cases hr : s.reverse with
    | nil => rfl
    | cons c t =>
      rw [List.dropWhile_cons, h c ?_]
      · simp
      · rw [← List.mem_reverse, hr]; exact List.mem_cons_self _ _
  unfold pyStrip
  rw [h1, h2, List.reverse_reverse]

lemma stripUnderscores_eq_self {s : List Char} (h : ∀ c ∈ s, c ≠ '_') :
    stripUnderscores s = s := by
  unfold stripUnderscores
  rw [List.filter_eq_self]
  intro c hc
  simpa using h c hc


lemma parseDigits_of_ne_nil {base : Nat} {s : List Char} (h : s ≠ []) :
    parseDigits base s = parseDigitsAux base 0 s := by
  cases s with
  | nil => exact absurd rfl h
  | cons c t => rfl

lemma digits_lt_ten {n d : Nat} (hd : d ∈ Nat.digits 10 n) : d < 10 :=
  Nat.digits_lt_base (by norm_num) hd

lemma digits_lt_sixteen {n d : Nat} (hd : d ∈ Nat.digits 16 n) : d < 16 :=
  Nat.digits_lt_base (by norm_num) hd

lemma pyDec_eq_of_pos {n : Nat} (h0 : n ≠ 0) :
    pyDec n = (Nat.digits 10 n).reverse.map digitCharUpper := by
  rw [pyDec, if_neg h0, pyDigits_eq_digits 10 (by norm_num) n n le_rfl]

lemma pyHexUpper_eq_of_pos {n : Nat} (h0 : n ≠ 0) :
    pyHexUpper n = (Nat.digits 16 n).reverse.map digitCharUpper := by
  rw [pyHexUpper, if_neg h0, pyDigits_eq_digits 16 (by norm_num) n n le_rfl]

lemma pyDec_chars {n : Nat} : ∀ c ∈ pyDec n, ∃ d, d < 10 ∧ c = digitCharUpper d := by
  intro c hc
  by_cases h0 : n = 0
  · rw [h0] at hc
    simp [pyDec] at hc
    exact ⟨0, by norm_num, by rw [hc]; decide⟩
  · rw [pyDec_eq_of_pos h0] at hc
    obtain ⟨d, hd, rfl⟩ := List.mem_map.1 hc
    exact ⟨d, digits_lt_ten (List.mem_reverse.1 hd), rfl⟩

lemma parseDigits_pyDec (n : Nat) : parseDigits 10 (pyDec n) = some n := by
  by_cases h0 : n = 0
  · rw [h0]; decide
  · have hne : Nat.digits 10 n ≠ [] := Nat.digits_ne_nil_iff_ne_zero.2 h0
    rw [pyDec_eq_of_pos h0,
      parseDigits_of_ne_nil (by simpa using hne),
      parseDigitsAux_map 10 digitCharUpper _ 0
        (fun d hd => (decDigitChar_facts d (digits_lt_ten (List.mem_reverse.1 hd))).2.2.2.2.2.2),
      foldl_reverse_ofDigits]
    simp [Nat.ofDigits_digits]

lemma normalize_pyDec (n : Nat) :
    stripUnderscores ((pyStrip (pyDec n)).map pyLowerChar) = pyDec n := by
  have hchars := @pyDec_chars n
  rw [pyStrip_eq_self (fun c hc => by
    obtain ⟨d, hd, rfl⟩ := hchars c hc
    exact (decDigitChar_facts d hd).1)]
  have hmap : (pyDec n).map pyLowerChar = pyDec n := by
    have := List.map_congr_left (l := pyDec n) (f := pyLowerChar) (g := id) (fun c hc => by
      obtain ⟨d, hd, rfl⟩ := hchars c hc
      exact (decDigitChar_facts d hd).2.1)
    rw [this, List.map_id]
  rw [hmap]
  exact stripUnderscores_eq_self (fun c hc => by
    obtain ⟨d, hd, rfl⟩ := hchars c hc
    exact (decDigitChar_facts d hd).2.2.1)


lemma pyDec_ne_nil (n : Nat) : pyDec n ≠ [] := by
  by_cases h0 : n = 0
  · rw [h0]; decide
  · rw [pyDec_eq_of_pos h0]
    simpa using Nat.digits_ne_nil_iff_ne_zero.2 h0

lemma startsWith0x_pyDec (n : Nat) : startsWith0x (pyDec n) = false := by
  cases hs : pyDec n with
  | nil => rfl
  | cons c0 t =>
    cases t with
    | nil => rfl
    | cons c1 t2 =>
      have hc1 : c1 ∈ pyDec n := by rw [hs]; exact List.mem_cons_of_mem _ (List.mem_cons_self _ _)
      obtain ⟨d, hd, rfl⟩ := pyDec_chars c1 hc1
      have hx : digitCharUpper d ≠ 'x' := (decDigitChar_facts d hd).2.2.2.2.2.1
      simp [startsWith0x, hx]

lemma splitSign_pyDec (n : Nat) : splitSign (pyDec n) = (1, pyDec n) := by
  cases hs : pyDec n with
  | nil => exact absurd hs (pyDec_ne_nil n)
  | cons c0 t =>
    have hc0 : c0 ∈ pyDec n := by rw [hs]; exact List.mem_cons_self _ _
    obtain ⟨d, hd, rfl⟩ := pyDec_chars c0 hc0
    rw [splitSign, if_neg (decDigitChar_facts d hd).2.2.2.1, if_neg (decDigitChar_facts d hd).2.2.2.2.1]

lemma pyInt_pyDec (n : Nat) : pyInt 10 (pyDec n) = some (n : ℤ) := by
  rw [pyInt, splitSign_pyDec]
  norm_num
  rw [parseDigits_pyDec]
  simp

lemma parse_can_id_pyDec {n : Nat} (h : n ≤ MAX_CAN_ID) :
    parse_can_id (.vStr (pyDec n)) = .ok (n : ℤ) := by
  rw [parse_can_id]
  simp only [normalize_pyDec, startsWith0x_pyDec, Bool.false_eq_true, if_false, pyInt_pyDec]
  rw [if_pos]
  constructor
  · exact Int.ofNat_nonneg n
  · exact_mod_cast h


lemma pyHexUpper_chars {n : Nat} : ∀ c ∈ pyHexUpper n, ∃ d, d < 16 ∧ c = digitCharUpper d := by
  intro c hc
  by_cases h0 : n = 0
  · rw [h0] at hc
    simp [pyHexUpper] at hc
    exact ⟨0, by norm_num, by rw [hc]; decide⟩
  · rw [pyHexUpper_eq_of_pos h0] at hc
    obtain ⟨d, hd, rfl⟩ := List.mem_map.1 hc
    exact ⟨d, digits_lt_sixteen (List.mem_reverse.1 hd), rfl⟩

lemma normalize_hexStr (n : Nat) :
    stripUnderscores ((pyStrip ('0' :: 'x' :: pyHexUpper n)).map pyLowerChar)
      = '0' :: 'x' :: (pyHexUpper n).map pyLowerChar := by
  have hchars := @pyHexUpper_chars n
  rw [pyStrip_eq_self (fun c hc => by
    rcases List.mem_cons.1 hc with rfl | hc2
    · decide
    rcases List.mem_cons.1 hc2 with rfl | hc3
    · decide
    obtain ⟨d, hd, rfl⟩ := hchars c hc3
    exact (hexDigitChar_facts d hd).1)]
  rw [List.map_cons, List.map_cons]
  have h0 : pyLowerChar '0' = '0' := by decide
  have hx : pyLowerChar 'x' = 'x' := by decide
  rw [h0, hx]
  exact stripUnderscores_eq_self (fun c hc => by
    rcases List.mem_cons.1 hc with rfl | hc2
    · decide
    rcases List.mem_cons.1 hc2 with rfl | hc3
    · decide
    obtain ⟨c0, hc0, rfl⟩ := List.mem_map.1 hc3
    obtain ⟨d, hd, rfl⟩ := hchars c0 hc0
    exact (hexDigitChar_facts d hd).2.1)

lemma parseDigits_hexLower (n : Nat) :
    parseDigits 16 ((pyHexUpper n).map pyLowerChar) = some n := by
  by_cases h0 : n = 0
  · rw [h0]; decide
  · have hne : Nat.digits 16 n ≠ [] := Nat.digits_ne_nil_iff_ne_zero.2 h0
    rw [pyHexUpper_eq_of_pos h0, List.map_map,
      parseDigits_of_ne_nil (by simpa using hne),
      parseDigitsAux_map 16 (pyLowerChar ∘ digitCharUpper) _ 0
        (fun d hd => (hexDigitChar_facts d (digits_lt_sixteen (List.mem_reverse.1 hd))).2.2),
      foldl_reverse_ofDigits]
    simp [Nat.ofDigits_digits]

lemma pyInt_hexStr (n : Nat) :
    pyInt 16 ('0' :: 'x' :: (pyHexUpper n).map pyLowerChar) = some (n : ℤ) := by
  have hdrop : dropHexMark ('0' :: 'x' :: (pyHexUpper n).map pyLowerChar)
      = (pyHexUpper n).map pyLowerChar := by
    simp [dropHexMark]
  have hsign : splitSign ('0' :: 'x' :: (pyHexUpper n).map pyLowerChar)
      = (1, '0' :: 'x' :: (pyHexUpper n).map pyLowerChar) := by
    simp [splitSign]
  simp [pyInt, hsign, dropHexMark, parseDigits_hexLower]

lemma parse_can_id_hexStr {n : Nat} (h : n ≤ MAX_CAN_ID) :
    parse_can_id (.vStr ('0' :: 'x' :: pyHexUpper n)) = .ok (n : ℤ) := by
  rw [parse_can_id]
  simp only [normalize_hexStr]
  rw [show startsWith0x ('0' :: 'x' :: (pyHexUpper n).map pyLowerChar) = true from by
    simp [startsWith0x]]
  simp only [if_true, pyInt_hexStr]
  rw [if_pos]
  constructor
  · exact Int.ofNat_nonneg n
  · exact_mod_cast h

end SocketcanSA

namespace SocketcanSA

/-- C5. For every identifier in `[0, 0x1FFFFFFF]`, parsing its decimal
string form and parsing its `0x`-prefixed uppercase-hexadecimal string form
both succeed in `_parse_can_id` and both return the identifier itself, so
heterogeneous encodings canonicalize to the same value. -/
theorem identifier_parse_roundtrip (n : Nat) (h : n ≤ MAX_CAN_ID) :
    parse_can_id (.vStr (pyDec n)) = .ok (n : ℤ) ∧
    parse_can_id (.vStr ('0' :: 'x' :: pyHexUpper n)) = .ok (n : ℤ) :=
  ⟨parse_can_id_pyDec h, parse_can_id_hexStr h⟩

/-- Witness for C5 at the identifier 291 = 0x123. -/
theorem identifier_parse_roundtrip_witness :
    (291 : Nat) ≤ MAX_CAN_ID ∧
    (parse_can_id (.vStr (pyDec 291)) = .ok (291 : ℤ) ∧
     parse_can_id (.vStr ('0' :: 'x' :: pyHexUpper 291)) = .ok (291 : ℤ)) :=
  ⟨by decide, identifier_parse_roundtrip 291 (by decide)⟩

/-- C6. For a limits entry with a valid strictly positive rate: when
`burst` is absent the compiled burst is `ceil(rate)` (hence `burst ≥ rate`
on the default path; rate 10.7 compiles to burst 11 and rate 5.0 to burst
5), and when `burst` is present it must be an integer `≥ 1`, otherwise
compilation fails with the invalid-burst error. -/
theorem default_burst_is_ceil_rate (rv : Value) (r : ℚ)
    (hr : numVal? rv = some r) (hpos : 0 < r) :
    (compile_rate_burst (some rv) none = .ok { rate := r, burst := ⌈r⌉ } ∧ r ≤ (⌈r⌉ : ℚ)) ∧
    compile_rate_burst (some (.vFloat (107/10))) none = .ok { rate := 107/10, burst := 11 } ∧
    compile_rate_burst (some (.vFloat 5)) none = .ok { rate := 5, burst := 5 } ∧
    (∀ b : ℤ, 1 ≤ b →
      compile_rate_burst (some rv) (some (.vInt b)) = .ok { rate := r, burst := b }) ∧
    (∀ b : ℤ, b < 1 →
      compile_rate_burst (some rv) (some (.vInt b)) = .error .invalidBurst) ∧
    (∀ bv : Value, (∀ b : ℤ, bv ≠ .vInt b) →
      compile_rate_burst (some rv) (some bv) = .error .invalidBurst) := by
  have hneg : ¬ r ≤ 0 := not_le.2 hpos
  refine ⟨⟨?_, Int.le_ceil r⟩, ?_, ?_, ?_, ?_, ?_⟩
  · simp only [compile_rate_burst, hr, if_neg hneg]
  · simp only [compile_rate_burst, numVal?]
    norm_num
    rw [Int.ceil_eq_iff]
    norm_num
  · simp only [compile_rate_burst, numVal?]
    norm_num
  · intro b hb
    simp only [compile_rate_burst, hr, if_neg hneg, if_neg (not_lt.2 hb)]
  · intro b hb
    simp only [compile_rate_burst, hr, if_neg hneg, if_pos hb]
  · intro bv hbv
    cases bv with
    | vInt b => exact absurd rfl (hbv b)
    | vFloat q => simp only [compile_rate_burst, hr, if_neg hneg]
    | vStr s => simp only [compile_rate_burst, hr, if_neg hneg]
    | vOther => simp only [compile_rate_burst, hr, if_neg hneg]

/-- Witness for C6 at rate 10.7. -/
theorem default_burst_is_ceil_rate_witness :
    numVal? (.vFloat (107/10)) = some (107/10 : ℚ) ∧ (0 : ℚ) < 107/10 ∧
    ((compile_rate_burst (some (.vFloat (107/10))) none
        = .ok { rate := 107/10, burst := ⌈(107/10 : ℚ)⌉ } ∧ (107/10 : ℚ) ≤ (⌈(107/10 : ℚ)⌉ : ℚ)) ∧
     compile_rate_burst (some (.vFloat (107/10))) none = .ok { rate := 107/10, burst := 11 } ∧
     compile_rate_burst (some (.vFloat 5)) none = .ok { rate := 5, burst := 5 } ∧
     (∀ b : ℤ, 1 ≤ b →
       compile_rate_burst (some (.vFloat (107/10))) (some (.vInt b))
         = .ok { rate := 107/10, burst := b }) ∧
     (∀ b : ℤ, b < 1 →
       compile_rate_burst (some (.vFloat (107/10))) (some (.vInt b))
         = .error .invalidBurst) ∧
     (∀ bv : Value, (∀ b : ℤ, bv ≠ .vInt b) →
       compile_rate_burst (some (.vFloat (107/10))) (some bv) = .error .invalidBurst)) :=
  ⟨rfl, by norm_num,
    default_burst_is_ceil_rate (.vFloat (107/10)) (107/10) rfl (by norm_num)⟩


lemma remapItemIds?_inv {i : RemapItem} {a b : ℤ} (h : remapItemIds? i = some (a, b)) :
    ∃ f t, i = .pair f t ∧ parse_can_id f = .ok a ∧ parse_can_id t = .ok b := by
  cases i with
  | notPair => simp [remapItemIds?] at h
  | pair f t =>
    cases hf : parse_can_id f with
    | error e => simp [remapItemIds?, hf] at h
    | ok x =>
      cases ht : parse_can_id t with
      | error e => simp [remapItemIds?, hf, ht] at h
      | ok y =>
        simp [remapItemIds?, hf, ht] at h
        exact ⟨f, t, rfl, by rw [hf, h.1], by rw [ht, h.2]⟩

lemma remapItemIds?_pair {f t : Value} {a b : ℤ}
    (hf : parse_can_id f = .ok a) (ht : parse_can_id t = .ok b) :
    remapItemIds? (.pair f t) = some (a, b) := by
  simp [remapItemIds?, hf, ht]

lemma remapSources_cons_some {i : RemapItem} {a b : ℤ} (rest : List RemapItem)
    (h : remapItemIds? i = some (a, b)) :
    remapSources (i :: rest) = a :: remapSources rest := by
  simp [remapSources, h]

lemma remap_aux_ok_props :
    ∀ (items : List RemapItem) (seen : List ℤ) (acc m : List (ℤ × ℤ)),
      compile_remap_aux seen acc items = .ok m →
      (∀ p ∈ acc, p.1 ≠ p.2) → seen = acc.map Prod.fst → seen.Nodup →
      (∀ p ∈ m, p.1 ≠ p.2) ∧ (m.map Prod.fst).Nodup := by
  intro items
  induction items with
  | nil =>
    intro seen acc m h hacc hseen hnd
    simp [compile_remap_aux] at h
    subst h
    exact ⟨hacc, hseen ▸ hnd⟩
  | cons i rest ih =>
    intro seen acc m h hacc hseen hnd
    cases i with
    | notPair => simp [compile_remap_aux] at h
    | pair f t =>
      cases hf : parse_can_id f with
      | error e => simp [compile_remap_aux, hf] at h
      | ok a =>
        cases ht : parse_can_id t with
        | error e => simp [compile_remap_aux, hf, ht] at h
        | ok b =>
          simp only [compile_remap_aux, hf, ht] at h
          by_cases hab : a = b
          · rw [if_pos hab] at h
            simp at h
          · rw [if_neg hab] at h
            by_cases hin : a ∈ seen
            · rw [if_pos hin] at h
              simp at h
            · rw [if_neg hin] at h
              refine ih _ _ _ h ?_ ?_ ?_
              · intro p hp
                rcases List.mem_append.1 hp with hp | hp
                · exact hacc p hp
                · rw [List.mem_singleton.1 hp]
                  exact hab
              · rw [List.map_append, hseen]
                rfl
              · rw [List.nodup_append]
                refine ⟨hnd, List.nodup_singleton a, ?_⟩
                intro x hx hx2
                rw [List.mem_singleton.1 hx2] at hx
                exact hin hx

lemma remap_aux_ok_no_identity :
    ∀ (items : List RemapItem) (seen : List ℤ) (acc m : List (ℤ × ℤ)),
      compile_remap_aux seen acc items = .ok m →
      ∀ i ∈ items, ¬ IdentityItem i := by
  intro items
  induction items with
  | nil =>
    intro seen acc m h i hi
    simp at hi
  | cons i rest ih =>
    intro seen acc m h j hj
    cases i with
    | notPair => simp [compile_remap_aux] at h
    | pair f t =>
      cases hf : parse_can_id f with
      | error e => simp [compile_remap_aux, hf] at h
      | ok a =>
        cases ht : parse_can_id t with
        | error e => simp [compile_remap_aux, hf, ht] at h
        | ok b =>
          simp only [compile_remap_aux, hf, ht] at h
          by_cases hab : a = b
          · rw [if_pos hab] at h
            simp at h
          · rw [if_neg hab] at h
            by_cases hin : a ∈ seen
            · rw [if_pos hin] at h
              simp at h
            · rw [if_neg hin] at h
              rcases List.mem_cons.1 hj with rfl | hj2
              · intro hid
                obtain ⟨c, hc⟩ := hid
                rw [remapItemIds?_pair hf ht] at hc
                have : a = c ∧ b = c := by
                  have := Option.some.inj hc
                  exact ⟨congrArg Prod.fst this, congrArg Prod.snd this⟩
                exact hab (this.1.trans this.2.symm)
              · exact ih _ _ _ h j hj2

lemma remap_aux_ok_sources_nodup :
    ∀ (items : List RemapItem) (seen : List ℤ) (acc m : List (ℤ × ℤ)),
      seen.Nodup → compile_remap_aux seen acc items = .ok m →
      (seen ++ remapSources items).Nodup := by
  intro items
  induction items with
  | nil =>
    intro seen acc m hnd h
    simpa [remapSources] using hnd
  | cons i rest ih =>
    intro seen acc m hnd h
    cases i with
    | notPair => simp [compile_remap_aux] at h
    | pair f t =>
      cases hf : parse_can_id f with
      | error e => simp [compile_remap_aux, hf] at h
      | ok a =>
        cases ht : parse_can_id t with
        | error e => simp [compile_remap_aux, hf, ht] at h
        | ok b =>
          simp only [compile_remap_aux, hf, ht] at h
          by_cases hab : a = b
          · rw [if_pos hab] at h
            simp at h
          · rw [if_neg hab] at h
            by_cases hin : a ∈ seen
            · rw [if_pos hin] at h
              simp at h
            · rw [if_neg hin] at h
              rw [remapSources_cons_some rest (remapItemIds?_pair hf ht),
                List.append_cons]
              refine ih _ _ _ ?_ h
              rw [List.nodup_append]
              refine ⟨hnd, List.nodup_singleton a, ?_⟩
              intro x hx hx2
              rw [List.mem_singleton.1 hx2] at hx
              exact hin hx


lemma remap_aux_dup_error :
    ∀ (items : List RemapItem) (seen : List ℤ) (acc : List (ℤ × ℤ)),
      (∀ i ∈ items, ∃ a b, remapItemIds? i = some (a, b) ∧ a ≠ b) →
      seen.Nodup → ¬ (seen ++ remapSources items).Nodup →
      compile_remap_aux seen acc items = .error .duplicateRemapSource := by
  intro items
  induction items with
  | nil =>
    intro seen acc hgood hnd hdup
    rw [remapSources, List.filterMap_nil, List.append_nil] at hdup
    exact absurd hnd hdup
  | cons i rest ih =>
    intro seen acc hgood hnd hdup
    obtain ⟨a, b, hab, hne⟩ := hgood i (List.mem_cons_self _ _)
    obtain ⟨f, t, rfl, hf, ht⟩ := remapItemIds?_inv hab
    rw [remapSources_cons_some rest hab, List.append_cons] at hdup
    simp only [compile_remap_aux, hf, ht, if_neg hne]
    by_cases hin : a ∈ seen
    · rw [if_pos hin]
    · rw [if_neg hin]
      refine ih _ _ (fun j hj => hgood j (List.mem_cons_of_mem _ hj)) ?_ hdup
      rw [List.nodup_append]
      refine ⟨hnd, List.nodup_singleton a, ?_⟩
      intro x hx hx2
      rw [List.mem_singleton.1 hx2] at hx
      exact hin hx

lemma remap_aux_identity_error :
    ∀ (items : List RemapItem) (seen : List ℤ) (acc : List (ℤ × ℤ)),
      (∀ i ∈ items, GoodItem i) →
      (seen ++ remapSources items).Nodup →
      (∃ i ∈ items, IdentityItem i) →
      compile_remap_aux seen acc items = .error .identityRemap := by
  intro items
  induction items with
  | nil =>
    intro seen acc hgood hnd hex
    simp at hex
  | cons i rest ih =>
    intro seen acc hgood hnd hex
    obtain ⟨q, hq⟩ := hgood i (List.mem_cons_self _ _)
    obtain ⟨a, b⟩ := q
    obtain ⟨f, t, rfl, hf, ht⟩ := remapItemIds?_inv hq
    by_cases hab : a = b
    · simp only [compile_remap_aux, hf, ht, if_pos hab]
    · rw [remapSources_cons_some rest hq, List.append_cons] at hnd
      have hin : a ∉ seen := by
        intro hx
        have h1 : (seen ++ [a]).Nodup := hnd.of_append_left
        have hdisj := (List.nodup_append.1 h1).2.2
        exact hdisj hx (List.mem_singleton.2 rfl)
      simp only [compile_remap_aux, hf, ht, if_neg hab, if_neg hin]
      obtain ⟨j, hj, hid⟩ := hex
      rcases List.mem_cons.1 hj with rfl | hj2
      · obtain ⟨c, hc⟩ := hid
        rw [hq] at hc
        have h2 := Option.some.inj hc
        exact absurd ((congrArg Prod.fst h2).trans (congrArg Prod.snd h2).symm) hab
      · exact ih _ _ (fun j2 hj2b => hgood j2 (List.mem_cons_of_mem _ hj2b)) hnd ⟨j, hj2, hid⟩


lemma load_rules_ok_inv {doc : RulesDoc} {p : Policy} (h : load_rules doc = .ok p) :
    compile_limits doc.limits = .ok p.limits ∧
    compile_actions doc.actions = .ok (p.drop, p.remap) := by
  unfold load_rules at h
  cases hl : compile_limits doc.limits with
  | error e => rw [hl] at h; simp at h
  | ok lims =>
    rw [hl] at h
    cases ha : compile_actions doc.actions with
    | error e => rw [ha] at h; simp at h
    | ok act =>
      rw [ha] at h
      simp only [Except.ok.injEq] at h
      rw [← h]
      exact ⟨rfl, rfl⟩

lemma compile_actions_ok_remap {ds : DropSection} {rs : RemapSection}
    {dr : List ℤ} {rm : List (ℤ × ℤ)}
    (h : compile_actions (.mapping ds rs) = .ok (dr, rm)) :
    compile_remap rs = .ok rm := by
  simp only [compile_actions] at h
  cases hd : compile_drop ds with
  | error e => rw [hd] at h; simp at h
  | ok d =>
    rw [hd] at h
    cases hr : compile_remap rs with
    | error e => rw [hr] at h; simp at h
    | ok r =>
      rw [hr] at h
      simp only [Except.ok.injEq, Prod.mk.injEq] at h
      rw [h.2]

lemma compiled_remap_props {doc : RulesDoc} {p : Policy} (h : load_rules doc = .ok p) :
    (∀ q ∈ p.remap, q.1 ≠ q.2) ∧ (p.remap.map Prod.fst).Nodup := by
  have ha := (load_rules_ok_inv h).2
  cases hact : doc.actions with
  | absent =>
    rw [hact] at ha
    simp only [compile_actions, Except.ok.injEq, Prod.mk.injEq] at ha
    rw [← ha.2]
    exact ⟨by simp, by simp⟩
  | notMapping =>
    rw [hact] at ha
    simp [compile_actions] at ha
  | mapping ds rs =>
    rw [hact] at ha
    have hr := compile_actions_ok_remap ha
    cases rs with
    | absent =>
      simp only [compile_remap, Except.ok.injEq] at hr
      rw [← hr]
      exact ⟨by simp, by simp⟩
    | notList => simp [compile_remap] at hr
    | list items =>
      exact remap_aux_ok_props items [] [] p.remap hr (by simp) rfl List.nodup_nil


/-- C7, counterexample. The claim says compilation fails with
`DuplicateRemapSource` on the second entry whose canonical `from` repeats
an earlier one. The identity check at rules.py line 160 runs before the
duplicate check at line 163: for the entries `{from: 1, to: 2}` then
`{from: 1, to: 1}`, whose second entry repeats the first entry's `from`,
compilation fails with the identity error, not the duplicate error. -/
theorem remap_identity_precedes_duplicate_counterexample :
    compile_remap (.list [.pair (.vInt 1) (.vInt 2), .pair (.vInt 1) (.vInt 1)])
      = .error .identityRemap ∧
    RuleErr.identityRemap ≠ RuleErr.duplicateRemapSource := by
  constructor
  · decide
  · decide

/-- C7, amended. A compiled policy's remap table has no identity mapping
and pairwise distinct sources; a document whose remap list compiles never
contains an identity entry or a duplicated source (so such documents never
compile); when every entry parses and none is an identity, a duplicated
source fails with `DuplicateRemapSource`; and when every entry parses and
the sources are distinct, an identity entry fails with `IdentityRemap` —
the identity check precedes the duplicate check, so an entry that is both
yields `IdentityRemap` (see the counterexample). -/
theorem remap_validation_amended :
    (∀ (doc : RulesDoc) (p : Policy), load_rules doc = .ok p →
      (∀ q ∈ p.remap, q.1 ≠ q.2) ∧ (p.remap.map Prod.fst).Nodup) ∧
    (∀ (doc : RulesDoc) (ds : DropSection) (items : List RemapItem) (p : Policy),
      doc.actions = .mapping ds (.list items) → load_rules doc = .ok p →
      (∀ i ∈ items, ¬ IdentityItem i) ∧ (remapSources items).Nodup) ∧
    (∀ items : List RemapItem,
      (∀ i ∈ items, ∃ a b, remapItemIds? i = some (a, b) ∧ a ≠ b) →
      ¬ (remapSources items).Nodup →
      compile_remap (.list items) = .error .duplicateRemapSource) ∧
    (∀ items : List RemapItem,
      (∀ i ∈ items, GoodItem i) → (remapSources items).Nodup →
      (∃ i ∈ items, IdentityItem i) →
      compile_remap (.list items) = .error .identityRemap) := by
  refine ⟨?_, ?_, ?_, ?_⟩
  · intro doc p h
    exact compiled_remap_props h
  · intro doc ds items p hact h
    have ha := (load_rules_ok_inv h).2
    rw [hact] at ha
    have hr := compile_actions_ok_remap ha
    simp only [compile_remap] at hr
    exact ⟨remap_aux_ok_no_identity items [] [] p.remap hr,
      by simpa using remap_aux_ok_sources_nodup items [] [] p.remap List.nodup_nil hr⟩
  · intro items hgood hdup
    simp only [compile_remap]
    exact remap_aux_dup_error items [] [] hgood List.nodup_nil (by simpa using hdup)
  · intro items hgood hnd hex
    simp only [compile_remap]
    exact remap_aux_identity_error items [] [] hgood (by simpa using hnd) hex

/-- Witness for the amended C7: a duplicated source among non-identity
entries, and an identity entry among distinct sources. -/
theorem remap_validation_amended_witness :
    compile_remap (.list [.pair (.vInt 1) (.vInt 2), .pair (.vInt 1) (.vInt 3)])
      = .error .duplicateRemapSource ∧
    compile_remap (.list [.pair (.vInt 7) (.vInt 8), .pair (.vInt 9) (.vInt 9)])
      = .error .identityRemap :=
  ⟨remap_validation_amended.2.2.1 [.pair (.vInt 1) (.vInt 2), .pair (.vInt 1) (.vInt 3)]
      (by
        intro i hi
        rcases List.mem_cons.1 hi with rfl | hi2
        · exact ⟨1, 2, by decide, by decide⟩
        rcases List.mem_cons.1 hi2 with rfl | hi3
        · exact ⟨1, 3, by decide, by decide⟩
        · simp at hi3)
      (by decide),
    remap_validation_amended.2.2.2 [.pair (.vInt 7) (.vInt 8), .pair (.vInt 9) (.vInt 9)]
      (by
        intro i hi
        rcases List.mem_cons.1 hi with rfl | hi2
        · exact ⟨(7, 8), by decide⟩
        rcases List.mem_cons.1 hi2 with rfl | hi3
        · exact ⟨(9, 9), by decide⟩
        · simp at hi3)
      (by decide)
      ⟨.pair (.vInt 9) (.vInt 9), by decide, ⟨9, by decide⟩⟩⟩

/-- C10. Two limits entries whose distinct document keys canonicalize to
the same identifier compile without error, and the compiled limits map
holds the rate and burst of the entry processed last — duplicate limit keys
silently overwrite, in contrast to remap, where a duplicated source is
rejected (conjunct two of the witness and the remap claims). -/
theorem duplicate_limit_keys_last_wins (k1 k2 : Value) (i : ℤ) (r1 b1 r2 b2 : Option Value) (l1 l2 : Limit)
    (hk1 : parse_can_id k1 = .ok i) (hk2 : parse_can_id k2 = .ok i)
    (hc1 : compile_rate_burst r1 b1 = .ok l1) (hc2 : compile_rate_burst r2 b2 = .ok l2) :
    compile_limits (.mapping [(k1, .map r1 b1), (k2, .map r2 b2)]) = .ok [(i, l2)] := by
  simp only [compile_limits, compile_limits_aux, hk1, hk2, hc1, hc2]
  simp [dictInsert]

/-- Witness for C10: the key `0x123` as a string and the key 291 as an
integer canonicalize to the same identifier; the second entry's rate 7 and
burst 7 win. -/
theorem duplicate_limit_keys_last_wins_witness :
    parse_can_id (.vStr ['0', 'x', '1', '2', '3']) = .ok (291 : ℤ) ∧
    parse_can_id (.vInt 291) = .ok (291 : ℤ) ∧
    compile_rate_burst (some (.vInt 5)) none = .ok { rate := 5, burst := 5 } ∧
    compile_rate_burst (some (.vInt 7)) none = .ok { rate := 7, burst := 7 } ∧
    compile_limits (.mapping
      [(.vStr ['0', 'x', '1', '2', '3'], .map (some (.vInt 5)) none),
       (.vInt 291, .map (some (.vInt 7)) none)])
      = .ok [(291, { rate := 7, burst := 7 })] := by
  have hc1 : compile_rate_burst (some (.vInt 5)) none = .ok { rate := 5, burst := 5 } := by
    simp [compile_rate_burst, numVal?]
  have hc2 : compile_rate_burst (some (.vInt 7)) none = .ok { rate := 7, burst := 7 } := by
    simp [compile_rate_burst, numVal?]
  exact ⟨by decide, by decide, hc1, hc2,
    duplicate_limit_keys_last_wins (.vStr ['0', 'x', '1', '2', '3']) (.vInt 291) 291
      (some (.vInt 5)) none (some (.vInt 7)) none
      { rate := 5, burst := 5 } { rate := 7, burst := 7 }
      (by decide) (by decide) hc1 hc2⟩

end SocketcanSA
